import Mathlib

/-!
Verification of the duplicate-detection and ranking engine of
JellyfinDeduplicator (src/components/Scanner.tsx, src/components/DuplicateItem.tsx,
src/types.ts).

The data model mirrors `src/types.ts`; only the fields consumed by the
modeled logic are carried (display-only fields such as `Path`, `Container`,
`ImageTags`, `DateCreated` are omitted).  JavaScript numbers holding byte
sizes, bitrates and years are non-negative integers here (`Nat`), with `Int`
where the code subtracts.  A JS optional field is `Option`; the code's
`x || 0` idiom on a numeric read is `Option.getD 0` (both send an absent or
zero value to `0`), and JS truthiness of an optional string ("" and
`undefined` are falsy) is modeled explicitly.  `Size` is declared required in
`types.ts` but every access site guards it with `?.Size || 0`, so it is
carried as an `Option Nat` covering runtime absence.
-/

namespace JellyfinDedup

/-- `MediaStream` from src/types.ts. `Type` is a reserved word in Lean, so the
field is `StreamType`; the other fields (`Codec`, `Language`, `Width`,
`Height`, `IsDefault`, `ChannelLayout`) are not consumed by the modeled
logic and are omitted. -/
structure MediaStream where
  StreamType : String
  BitRate : Option Nat
  deriving DecidableEq, Repr

/-- `MediaSource` from src/types.ts (fields consumed by the engine). -/
structure MediaSource where
  Size : Option Nat
  Bitrate : Option Nat
  MediaStreams : List MediaStream
  deriving DecidableEq, Repr

/-- `ProviderIds` from src/types.ts. -/
structure ProviderIds where
  Tmdb : Option String
  Imdb : Option String
  deriving DecidableEq, Repr

/-- `JellyfinItem` from src/types.ts (fields consumed by the engine). -/
structure JellyfinItem where
  Id : String
  Name : String
  ProductionYear : Option Nat
  ProviderIds : ProviderIds
  MediaSources : Option (List MediaSource)
  deriving DecidableEq, Repr

/-- `DuplicateGroup` from src/types.ts. -/
structure DuplicateGroup where
  id : String
  title : String
  year : Option Nat
  items : List JellyfinItem
  deriving DecidableEq, Repr

/-- JS truthiness of an optional string: `undefined` and `""` are falsy
(`if (item.ProviderIds.Tmdb)` in Scanner.tsx line 79). -/
def truthyStr : Option String → Bool
  | none => false
  | some s => s != ""

/-- `item.Name.toLowerCase().replace(/[^a-z0-9]/g, '')` (Scanner.tsx line 84):
lower-case, then delete every character outside `[a-z0-9]`.  Lowercasing is
ASCII (`Char.toLower`), matching `toLowerCase` on ASCII titles. -/
def normName (s : String) : String :=
  String.mk ((s.data.map Char.toLower).filter fun c =>
    (decide ('a' ≤ c) && decide (c ≤ 'z')) || (decide ('0' ≤ c) && decide (c ≤ '9')))

/-- `${item.ProductionYear || '0000'}` (Scanner.tsx line 85): a missing year or
the (falsy) year 0 prints as the literal token "0000". -/
def yearToken : Option Nat → String
  | none => "0000"
  | some y => if y = 0 then "0000" else toString y

/-- Key derivation of Scanner.tsx lines 78-86.  The truthiness guard means a
present-but-empty provider id falls through to the next priority; when a guard
holds the (non-empty) id itself is spliced into the key, hence the `getD ""`
which is never the `none` case under the guard. -/
def groupKey (item : JellyfinItem) : String :=
  if truthyStr item.ProviderIds.Tmdb then
    "tmdb-" ++ item.ProviderIds.Tmdb.getD ""
  else if truthyStr item.ProviderIds.Imdb then
    "imdb-" ++ item.ProviderIds.Imdb.getD ""
  else
    "name-" ++ normName item.Name ++ "-" ++ yearToken item.ProductionYear

/-- One step of the grouping loop of Scanner.tsx lines 74-97: look the key up
in the accumulator (a string-keyed JS object whose keys — all carrying a
non-numeric prefix — enumerate in insertion order, modeled as an association
list), create the group on first sight of the key with the current item's
title and year, and append the item to its group's member list. -/
def insertItem (gs : List DuplicateGroup) (item : JellyfinItem) : List DuplicateGroup :=
  let key := groupKey item
  if gs.any (fun g => g.id == key) then
    gs.map (fun g => if g.id == key then { g with items := g.items ++ [item] } else g)
  else
    gs ++ [{ id := key, title := item.Name, year := item.ProductionYear, items := [item] }]

/-- `items.forEach(...)` building `groups` (Scanner.tsx lines 71-97), with
`Object.values` in insertion order. -/
def buildGroups (items : List JellyfinItem) : List DuplicateGroup :=
  items.foldl insertItem []

/-- `Object.values(groups).filter(g => g.items.length > 1)` (Scanner.tsx line 100). -/
def dedupeFilter (gs : List DuplicateGroup) : List DuplicateGroup :=
  gs.filter (fun g => decide (1 < g.items.length))

/-- `g.title.toLowerCase().includes(lowerSearch)` (Scanner.tsx lines 104-107):
case-insensitive substring test. -/
def matchesSearch (searchTerm : String) (g : DuplicateGroup) : Bool :=
  decide (searchTerm.data.map Char.toLower <:+: g.title.data.map Char.toLower)

/-- `if (searchTerm) { duplicates = duplicates.filter(...) }` (Scanner.tsx
lines 103-108): an empty search term (falsy) skips the filter. -/
def searchFilter (searchTerm : String) (gs : List DuplicateGroup) : List DuplicateGroup :=
  if searchTerm.isEmpty then gs else gs.filter (matchesSearch searchTerm)

/-- `duplicates.sort((a, b) => a.title.localeCompare(b.title))` (Scanner.tsx
line 111).  `localeCompare` is an external, locale-dependent comparator; the
pipeline is parametrized by `le a b`, standing for
`a.localeCompare(b) <= 0`.  `Array.prototype.sort` is stable per ECMA-262,
modeled by the stable `List.mergeSort`. -/
def sortGroups (le : String → String → Bool) (gs : List DuplicateGroup) : List DuplicateGroup :=
  gs.mergeSort (fun a b => le a.title b.title)

/-- The full `duplicateGroups` memo of Scanner.tsx lines 71-112: group, keep
only groups with more than one member, apply the free-text filter, sort by
title. -/
def duplicateGroups (le : String → String → Bool) (items : List JellyfinItem)
    (searchTerm : String) : List DuplicateGroup :=
  sortGroups le (searchFilter searchTerm (dedupeFilter (buildGroups items)))

/-- `prev.MediaSources?.[0]?.Bitrate || 0` (Scanner.tsx lines 131-132). -/
def sourceBitrate (item : JellyfinItem) : Nat :=
  match item.MediaSources with
  | some (s :: _) => s.Bitrate.getD 0
  | _ => 0

/-- `prev.MediaSources?.[0]?.Size || 0` (Scanner.tsx lines 136-137, 148). -/
def sourceSize (item : JellyfinItem) : Nat :=
  match item.MediaSources with
  | some (s :: _) => s.Size.getD 0
  | _ => 0

/-- The reducer of Scanner.tsx lines 130-140: the candidate replaces the
running best on strictly greater bitrate, or on equal bitrate and strictly
greater size; otherwise (ties included) the running best is kept. -/
def bestStep (prev current : JellyfinItem) : JellyfinItem :=
  let prevBitrate := sourceBitrate prev
  let currBitrate := sourceBitrate current
  if currBitrate > prevBitrate then current
  else if currBitrate = prevBitrate then
    (if sourceSize current > sourceSize prev then current else prev)
  else prev

/-- `getBestItemId` (Scanner.tsx lines 128-142): `Array.prototype.reduce`
without an initial value seeds the reduction with the first element and throws
on an empty array, hence the `Option`. -/
def getBestItemId : List JellyfinItem → Option String
  | [] => none
  | x :: xs => some ((xs.foldl bestStep x).Id)

/-- `totalDuplicates` (Scanner.tsx line 144): `reduce((acc, group) =>
acc + group.items.length - 1, 0)` over JS integers, hence `Int`. -/
def totalDuplicates (gs : List DuplicateGroup) : Int :=
  gs.foldl (fun acc g => acc + (g.items.length : Int) - 1) 0

/-- The per-group size list of Scanner.tsx line 148. -/
def groupSizes (g : DuplicateGroup) : List Nat :=
  g.items.map sourceSize

/-- The accumulated byte total of `wastedSpace` (Scanner.tsx lines 145-153),
before the GiB conversion and formatting of line 153: per group,
`sizes.reduce((a,b) => a+b, 0)` minus `Math.max(...sizes)`.  `Math.max` of an
empty spread is `-Infinity`, which has no `Int` counterpart; the `getD 0`
branch is unreachable for the engine's groups, which are never empty. -/
def wastedBytes (gs : List DuplicateGroup) : Int :=
  gs.foldl (fun total g =>
    let sizes := groupSizes g
    let totalGroup : Nat := sizes.foldl (· + ·) 0
    total + ((totalGroup : Int) - ((sizes.max?).getD 0 : Int))) 0

/-- `item.MediaSources?.[0]` (DuplicateItem.tsx line 19). -/
def primarySource (item : JellyfinItem) : Option MediaSource :=
  match item.MediaSources with
  | some (s :: _) => some s
  | _ => none

/-- `mediaSource?.MediaStreams?.find(s => s.Type === 'Video')`
(DuplicateItem.tsx line 20). -/
def videoStream (item : JellyfinItem) : Option MediaStream :=
  (primarySource item).bind fun m => m.MediaStreams.find? (fun s => s.StreamType == "Video")

/-- JS truthiness of an optional number: `undefined` and `0` are falsy. -/
def truthyNum : Option Nat → Option Nat
  | none => none
  | some n => if n = 0 then none else some n

/-- The displayed bitrate value of DuplicateItem.tsx lines 26-27, before the
Mbps conversion and formatting: the primary source's bitrate when truthy, else
the video stream's bitrate when truthy, else `none` (rendered "Unknown"). -/
def displayBitrate (item : JellyfinItem) : Option Nat :=
  match truthyNum ((primarySource item).bind MediaSource.Bitrate) with
  | some n => some n
  | none => truthyNum ((videoStream item).bind MediaStream.BitRate)

/-- Strip the stream descriptors from a media source, leaving everything the
ranking comparator reads untouched. -/
def clearStreams (s : MediaSource) : MediaSource :=
  { s with MediaStreams := [] }

/-- Strip every stream descriptor from an item; used to state that `getBestItemId`
never consults stream-level data. -/
def clearItemStreams (it : JellyfinItem) : JellyfinItem :=
  { it with MediaSources := it.MediaSources.map (List.map clearStreams) }

/-- Reduction step written from the spec's words (§4.2): the candidate replaces
the running best iff its bitrate is strictly greater, or the bitrates are equal
and its size is strictly greater; every tie keeps the earlier entry. -/
def bestStepSpec (prev current : JellyfinItem) : JellyfinItem :=
  if sourceBitrate prev < sourceBitrate current ∨
      (sourceBitrate current = sourceBitrate prev ∧ sourceSize prev < sourceSize current) then
    current
  else prev

/-- `pickPreferred` written from the spec's words: a left-to-right reduction
seeded with the first element, using the spec's replacement rule. -/
def pickPreferredSpec : List JellyfinItem → Option String
  | [] => none
  | x :: xs => some ((xs.foldl bestStepSpec x).Id)

/-- A provider id that is present and non-empty, `none` otherwise; used by the
spec-side key derivation. -/
def nonEmptyId : Option String → Option String
  | none => none
  | some s => if s = "" then none else some s

/-- Grouping key written from the spec's words (§4.1): first-match-wins
priority over a present-and-non-empty tmdb id, then a present-and-non-empty
imdb id, then the normalized-title/year fallback. -/
def keySpec (item : JellyfinItem) : String :=
  match nonEmptyId item.ProviderIds.Tmdb with
  | some t => "tmdb-" ++ t
  | none =>
    match nonEmptyId item.ProviderIds.Imdb with
    | some i => "imdb-" ++ i
    | none => "name-" ++ normName item.Name ++ "-" ++ yearToken item.ProductionYear

/-- The members of the input carrying a given grouping key, in input order. -/
def keyMembers (k : String) (l : List JellyfinItem) : List JellyfinItem :=
  l.filter (fun it => groupKey it == k)

/-- The group freshly created on first sight of an item's key (the
`groups[key] = {...}` branch of Scanner.tsx lines 88-95). -/
def newGroup (it : JellyfinItem) : DuplicateGroup :=
  { id := groupKey it, title := it.Name, year := it.ProductionYear, items := [it] }

/-- The loop invariant of the grouping pass: after processing the prefix
`processed`, every accumulated group holds exactly the processed members of its
key in input order, carries the title and year of the first such member, and
every processed item has a group for its key. -/
def GroupsInv (processed : List JellyfinItem) (gs : List DuplicateGroup) : Prop :=
  (∀ g ∈ gs, g.items = keyMembers g.id processed) ∧
  (∀ g ∈ gs, ∃ first, (keyMembers g.id processed).head? = some first ∧
      g.title = first.Name ∧ g.year = first.ProductionYear) ∧
  (∀ it ∈ processed, ∃ g ∈ gs, g.id = groupKey it)

/-- Convenience constructor for concrete catalog entries with at most one
media source and no stream descriptors. -/
def mkItem (id name : String) (yr : Option Nat) (tm im : Option String)
    (br sz : Option Nat) : JellyfinItem :=
  { Id := id, Name := name, ProductionYear := yr,
    ProviderIds := { Tmdb := tm, Imdb := im },
    MediaSources := some [{ Size := sz, Bitrate := br, MediaStreams := [] }] }

/-- C1 example, index 0: bitrate 5000, size 10. -/
def exRank0 : JellyfinItem := mkItem "e0" "M" none none none (some 5000) (some 10)

/-- C1 example, index 1: bitrate 8000, size 5. -/
def exRank1 : JellyfinItem := mkItem "e1" "M" none none none (some 8000) (some 5)

/-- C1 example, index 2: bitrate 8000, size 5 (exact tie with index 1). -/
def exRank2 : JellyfinItem := mkItem "e2" "M" none none none (some 8000) (some 5)

/-- C2 example: punctuated title, no external ids. -/
def exSpiderHyphen : JellyfinItem := mkItem "s1" "Spider-Man" (some 2002) none none none none

/-- C2 example: unpunctuated title, no external ids. -/
def exSpiderPlain : JellyfinItem := mkItem "s2" "SpiderMan" (some 2002) none none none none

/-- C2 example: release year 0. -/
def exYearZero : JellyfinItem := mkItem "y1" "X" (some 0) none none none none

/-- C2 example: release year missing. -/
def exYearNone : JellyfinItem := mkItem "y2" "X" none none none none none

/-- Duplicate pair sharing a tmdb id (witness input). -/
def exDupA : JellyfinItem := mkItem "a" "Foo" (some 1999) (some "77") none (some 1000) (some 10)

/-- Second member of the duplicate pair (witness input). -/
def exDupB : JellyfinItem := mkItem "b" "Foo Again" (some 2001) (some "77") none (some 2000) (some 20)

/-- A third entry with its own key (witness input). -/
def exSingle : JellyfinItem := mkItem "c" "Bar" (some 2010) none none none none

/-- The group formed by the duplicate pair `[exDupA, exDupB]`. -/
def exDupGroup : DuplicateGroup :=
  { id := "tmdb-77", title := "Foo", year := some 1999, items := [exDupA, exDupB] }

/-- C6 witness: no source-level bitrate, a video stream carrying one. -/
def exStreamOnly : JellyfinItem :=
  { Id := "v", Name := "V", ProductionYear := none,
    ProviderIds := { Tmdb := none, Imdb := none },
    MediaSources := some [{ Size := some 5, Bitrate := none,
                            MediaStreams := [{ StreamType := "Video", BitRate := some 777 }] }] }

/-- C7 example group titled "Foo". -/
def exGroupFoo : DuplicateGroup := { id := "kf", title := "Foo", year := none, items := [] }

/-- C7 example group titled "Barbarian". -/
def exGroupBarb : DuplicateGroup := { id := "kb", title := "Barbarian", year := none, items := [] }

/-- C8 example group whose members' primary-source sizes are 10, 20 and 30. -/
def exSizesGroup : DuplicateGroup :=
  { id := "ks", title := "S", year := none,
    items := [mkItem "s10" "S" none none none none (some 10),
              mkItem "s20" "S" none none none none (some 20),
              mkItem "s30" "S" none none none none (some 30)] }

/-- C9 witness: an entry with every optional field absent. -/
def bareEntry : JellyfinItem :=
  { Id := "bare", Name := "", ProductionYear := none,
    ProviderIds := { Tmdb := none, Imdb := none }, MediaSources := none }

/-- A degenerate total title comparator, used to instantiate witnesses. -/
def trivialLe : String → String → Bool := fun _ _ => true

/-! ## Helper lemmas -/

/-- The reducer of the code coincides with the spec's replacement rule. -/
theorem bestStep_eq_spec (p c : JellyfinItem) : bestStep p c = bestStepSpec p c := by
  simp only [bestStep, bestStepSpec, gt_iff_lt]
  by_cases h1 : sourceBitrate p < sourceBitrate c
  · simp [h1]
  · by_cases h2 : sourceBitrate c = sourceBitrate p
    · by_cases h3 : sourceSize p < sourceSize c <;> simp [h1, h2, h3]
    · simp [h1, h2]

/-- The reducer always returns one of its two arguments. -/
theorem bestStep_eq_or (p c : JellyfinItem) : bestStep p c = p ∨ bestStep p c = c := by
  simp only [bestStep]
  split
  · exact Or.inr rfl
  · split
    · split
      · exact Or.inr rfl
      · exact Or.inl rfl
    · exact Or.inl rfl

/-- The reduction only ever yields elements of its input. -/
theorem foldl_bestStep_mem : ∀ (xs : List JellyfinItem) (x : JellyfinItem),
    xs.foldl bestStep x ∈ x :: xs := by
  intro xs
  induction xs with
  | nil => intro x; simp
  | cons y ys ih =>
    intro x
    rw [List.foldl_cons]
    rcases List.mem_cons.mp (ih (bestStep x y)) with h | h
    · rcases bestStep_eq_or x y with h0 | h0
      · rw [h, h0]; exact List.mem_cons_self _ _
      · rw [h, h0]; exact List.mem_cons_of_mem _ (List.mem_cons_self _ _)
    · exact List.mem_cons_of_mem _ (List.mem_cons_of_mem _ h)

theorem sourceBitrate_clearItemStreams (it : JellyfinItem) :
    sourceBitrate (clearItemStreams it) = sourceBitrate it := by
  cases it with
  | mk Id Name PY PI MS =>
    cases MS with
    | none => rfl
    | some l =>
      cases l with
      | nil => rfl
      | cons s t => rfl

theorem sourceSize_clearItemStreams (it : JellyfinItem) :
    sourceSize (clearItemStreams it) = sourceSize it := by
  cases it with
  | mk Id Name PY PI MS =>
    cases MS with
    | none => rfl
    | some l =>
      cases l with
      | nil => rfl
      | cons s t => rfl

/-- Stripping stream descriptors commutes with the reduction step. -/
theorem bestStep_clearItemStreams (a b : JellyfinItem) :
    bestStep (clearItemStreams a) (clearItemStreams b) = clearItemStreams (bestStep a b) := by
  simp only [bestStep, sourceBitrate_clearItemStreams, sourceSize_clearItemStreams]
  by_cases h1 : sourceBitrate b > sourceBitrate a
  · simp [h1]
  · by_cases h2 : sourceBitrate b = sourceBitrate a
    · by_cases h3 : sourceSize b > sourceSize a <;> simp [h1, h2, h3]
    · simp [h1, h2]

/-- Stripping stream descriptors commutes with the whole reduction. -/
theorem foldl_bestStep_clear : ∀ (xs : List JellyfinItem) (x : JellyfinItem),
    (xs.map clearItemStreams).foldl bestStep (clearItemStreams x) =
      clearItemStreams (xs.foldl bestStep x) := by
  intro xs
  induction xs with
  | nil => intro x; rfl
  | cons y ys ih =>
    intro x
    rw [List.map_cons, List.foldl_cons, List.foldl_cons, bestStep_clearItemStreams, ih]

/-- Left fold of addition seeded at `a` is `a` plus the list sum (`Nat`). -/
theorem foldl_add_eq_sum : ∀ (l : List Nat) (a : Nat), l.foldl (· + ·) a = a + l.sum := by
  intro l
  induction l with
  | nil => intro a; simp
  | cons x t ih => intro a; rw [List.foldl_cons, ih, List.sum_cons]; omega

/-- Left fold accumulating `f` over a list is the sum of the mapped list (`Int`). -/
theorem foldl_acc_add {α : Type} (f : α → Int) : ∀ (l : List α) (a : Int),
    l.foldl (fun acc g => acc + f g) a = a + (l.map f).sum := by
  intro l
  induction l with
  | nil => intro a; simp
  | cons x t ih => intro a; rw [List.foldl_cons, ih, List.map_cons, List.sum_cons]; ring

/-- Splitting the filter defining `keyMembers` across an appended element. -/
theorem keyMembers_append (k : String) (l : List JellyfinItem) (it : JellyfinItem) :
    keyMembers k (l ++ [it]) =
      keyMembers k l ++ (if groupKey it == k then [it] else []) := by
  cases h : (groupKey it == k) <;>
    simp [keyMembers, List.filter_append, h]

/-- `insertItem` when the key is already present: the matching group is
extended in place. -/
theorem insertItem_of_any_true {gs : List DuplicateGroup} {it : JellyfinItem}
    (h : gs.any (fun g => g.id == groupKey it) = true) :
    insertItem gs it =
      gs.map (fun g =>
        if g.id == groupKey it then { g with items := g.items ++ [it] } else g) := by
  simp only [insertItem, h, if_true]

/-- `insertItem` when the key is new: a fresh singleton group is appended. -/
theorem insertItem_of_any_false {gs : List DuplicateGroup} {it : JellyfinItem}
    (h : gs.any (fun g => g.id == groupKey it) = false) :
    insertItem gs it = gs ++ [newGroup it] := by
  simp only [insertItem, newGroup, h, Bool.false_eq_true, if_false]

/-- The grouping invariant is preserved by one step of the loop. -/
theorem insertItem_inv {processed : List JellyfinItem} {gs : List DuplicateGroup}
    (h : GroupsInv processed gs) (it : JellyfinItem) :
    GroupsInv (processed ++ [it]) (insertItem gs it) := by
  obtain ⟨h1, h2, h3⟩ := h
  by_cases hany : gs.any (fun g => g.id == groupKey it) = true
  · rw [insertItem_of_any_true hany]
    refine ⟨?_, ?_, ?_⟩
    · intro g' hg'
      obtain ⟨g, hg, rfl⟩ := List.mem_map.mp hg'
      by_cases hid : (g.id == groupKey it) = true
      · have hidk : g.id = groupKey it := by simpa using hid
        have hc : (groupKey it == g.id) = true := by simp [hidk]
        simp only [hid, if_true]
        show g.items ++ [it] = keyMembers g.id (processed ++ [it])
        rw [keyMembers_append, hc, ← h1 g hg]
        simp
      · have hc : (groupKey it == g.id) = false := by
          simp only [beq_eq_false_iff_ne, ne_eq]
          intro hcontra
          exact hid (by simp [hcontra.symm])
        simp only [hid, Bool.false_eq_true, if_false]
        rw [keyMembers_append, hc]
        simpa using h1 g hg
    · intro g' hg'
      obtain ⟨g, hg, rfl⟩ := List.mem_map.mp hg'
      obtain ⟨first, hf, ht, hy⟩ := h2 g hg
      by_cases hid : (g.id == groupKey it) = true
      · have hidk : g.id = groupKey it := by simpa using hid
        have hc : (groupKey it == g.id) = true := by simp [hidk]
        refine ⟨first, ?_, by simpa only [hid, if_true] using ht,
          by simpa only [hid, if_true] using hy⟩
        have hidshow : (if (g.id == groupKey it) = true
            then { g with items := g.items ++ [it] } else g).id = g.id := by
          simp only [hid, if_true]
        rw [hidshow, keyMembers_append, hc, List.head?_append, hf]
        simp
      · have hc : (groupKey it == g.id) = false := by
          simp only [beq_eq_false_iff_ne, ne_eq]
          intro hcontra
          exact hid (by simp [hcontra.symm])
        refine ⟨first, ?_, by simpa only [hid, Bool.false_eq_true, if_false] using ht,
          by simpa only [hid, Bool.false_eq_true, if_false] using hy⟩
        have hidshow : (if (g.id == groupKey it) = true
            then { g with items := g.items ++ [it] } else g).id = g.id := by
          simp only [hid, Bool.false_eq_true, if_false]
        rw [hidshow, keyMembers_append, hc]
        simpa using hf
    · intro x hx
      rcases List.mem_append.mp hx with hx | hx
      · obtain ⟨g, hg, hgid⟩ := h3 x hx
        refine ⟨(fun g => if (g.id == groupKey it) = true
            then { g with items := g.items ++ [it] } else g) g,
          List.mem_map_of_mem _ hg, ?_⟩
        by_cases hid : (g.id == groupKey it) = true <;>
          simp only [hid, Bool.false_eq_true, if_true, if_false] <;> exact hgid
      · have hxit : x = it := by simpa using hx
        subst hxit
        obtain ⟨g0, hg0, hid0⟩ := List.any_eq_true.mp hany
        refine ⟨(fun g => if (g.id == groupKey x) = true
            then { g with items := g.items ++ [x] } else g) g0,
          List.mem_map_of_mem _ hg0, ?_⟩
        simp only [hid0, if_true]
        simpa using hid0
  · have hf : gs.any (fun g => g.id == groupKey it) = false := by
      revert hany
      cases gs.any (fun g => g.id == groupKey it) <;> simp
    rw [insertItem_of_any_false hf]
    have hnone : ∀ g ∈ gs, ¬ g.id = groupKey it := by
      intro g hg hcontra
      exact hany (List.any_eq_true.mpr ⟨g, hg, by simp [hcontra]⟩)
    have hmem_none : keyMembers (groupKey it) processed = [] := by
      simp only [keyMembers, List.filter_eq_nil_iff]
      intro a ha hpa
      obtain ⟨g, hg, hgid⟩ := h3 a ha
      exact hnone g hg (hgid.trans (by simpa using hpa))
    refine ⟨?_, ?_, ?_⟩
    · intro g' hg'
      rcases List.mem_append.mp hg' with hg | hg
      · have hc : (groupKey it == g'.id) = false := by
          simp only [beq_eq_false_iff_ne, ne_eq]
          intro hcontra
          exact hnone g' hg hcontra.symm
        rw [keyMembers_append, hc]
        simpa using h1 g' hg
      · have hgeq : g' = newGroup it := by simpa using hg
        subst hgeq
        show [it] = keyMembers (groupKey it) (processed ++ [it])
        rw [keyMembers_append, hmem_none]
        simp
    · intro g' hg'
      rcases List.mem_append.mp hg' with hg | hg
      · obtain ⟨first, hfst, ht, hy⟩ := h2 g' hg
        have hc : (groupKey it == g'.id) = false := by
          simp only [beq_eq_false_iff_ne, ne_eq]
          intro hcontra
          exact hnone g' hg hcontra.symm
        refine ⟨first, ?_, ht, hy⟩
        rw [keyMembers_append, hc]
        simpa using hfst
      · have hgeq : g' = newGroup it := by simpa using hg
        subst hgeq
        refine ⟨it, ?_, rfl, rfl⟩
        show (keyMembers (groupKey it) (processed ++ [it])).head? = some it
        rw [keyMembers_append, hmem_none]
        simp
    · intro x hx
      rcases List.mem_append.mp hx with hx | hx
      · obtain ⟨g, hg, hgid⟩ := h3 x hx
        exact ⟨g, List.mem_append_left _ hg, hgid⟩
      · have hxit : x = it := by simpa using hx
        subst hxit
        exact ⟨newGroup x, List.mem_append_right _ (by simp), rfl⟩

/-- The grouping invariant is preserved by the whole loop. -/
theorem foldl_insertItem_inv : ∀ (l processed : List JellyfinItem)
    (gs : List DuplicateGroup),
    GroupsInv processed gs → GroupsInv (processed ++ l) (l.foldl insertItem gs) := by
  intro l
  induction l with
  | nil => intro processed gs h; simpa using h
  | cons it t ih =>
    intro processed gs h
    rw [List.foldl_cons]
    have := ih (processed ++ [it]) (insertItem gs it) (insertItem_inv h it)
    simpa [List.append_assoc] using this

/-- `buildGroups` satisfies the grouping invariant over its full input. -/
theorem buildGroups_inv (l : List JellyfinItem) : GroupsInv l (buildGroups l) := by
  have h0 : GroupsInv [] [] := by
    refine ⟨?_, ?_, ?_⟩ <;> intro x hx <;> simp at hx
  have := foldl_insertItem_inv l [] [] h0
  simpa [buildGroups] using this

/-- The free-text filter only ever discards groups. -/
theorem mem_searchFilter {st : String} {gs : List DuplicateGroup} {g : DuplicateGroup}
    (h : g ∈ searchFilter st gs) : g ∈ gs := by
  unfold searchFilter at h
  split at h
  · exact h
  · exact List.mem_of_mem_filter h

/-! ## Claims -/

/-- C1: for every non-empty members list, `pickPreferred` (`getBestItemId`)
equals the left-to-right reduction from the first element that replaces the
running best iff the candidate's primary-source bitrate is strictly greater,
or the bitrates are equal and its primary-source size is strictly greater, an
exact tie keeping the earlier entry; on the example
`[{bitrate:5000,size:10},{bitrate:8000,size:5},{bitrate:8000,size:5}]` it
returns the id of the element at index 1. -/
theorem claim_C1 :
    (∀ members : List JellyfinItem, getBestItemId members = pickPreferredSpec members) ∧
    getBestItemId [exRank0, exRank1, exRank2] = some exRank1.Id := by
  constructor
  · intro members
    have h : bestStep = bestStepSpec := funext fun p => funext (bestStep_eq_spec p)
    cases members with
    | nil => rfl
    | cons x xs => simp [getBestItemId, pickPreferredSpec, h]
  · decide

/-- C2: the grouping key is derived by first-match-wins priority — tmdb id
when present and non-empty, else imdb id when present and non-empty, else the
name key built from the lower-cased title with all characters outside
`[a-z0-9]` deleted plus the year (the token "0000" when the year is 0 or
missing); "Spider-Man" and "SpiderMan" with equal years derive identical keys,
as do year-0 and year-missing entries. -/
theorem claim_C2 :
    (∀ item : JellyfinItem, groupKey item = keySpec item) ∧
    groupKey exSpiderHyphen = groupKey exSpiderPlain ∧
    groupKey exYearZero = groupKey exYearNone := by
  refine ⟨?_, by decide, by decide⟩
  intro item
  simp only [groupKey, keySpec, truthyStr, nonEmptyId]
  cases ht : item.ProviderIds.Tmdb with
  | none =>
    cases hi : item.ProviderIds.Imdb with
    | none => simp
    | some s => by_cases h : s = "" <;> simp [h]
  | some s =>
    by_cases h : s = ""
    · subst h
      cases hi : item.ProviderIds.Imdb with
      | none => simp
      | some s2 => by_cases h2 : s2 = "" <;> simp [h2]
    · simp [h]

/-- C5: `pickPreferred` is total on every non-empty members sequence, and on a
single-element sequence returns that element's id. -/
theorem claim_C5 : ∀ (x : JellyfinItem) (xs : List JellyfinItem),
    (∃ i, getBestItemId (x :: xs) = some i) ∧ getBestItemId [x] = some x.Id :=
  fun x xs => ⟨⟨(xs.foldl bestStep x).Id, rfl⟩, rfl⟩

/-- C6: each entry's comparison bitrate is read solely from the first media
source's bitrate field (0 when absent or no sources); stream-level bitrate
descriptors never influence selection, and the video-stream fallback is
consulted by the display computation exactly when the primary source carries
no truthy bitrate. -/
theorem claim_C6 :
    (∀ it : JellyfinItem,
      sourceBitrate it = ((it.MediaSources.getD []).head?.bind MediaSource.Bitrate).getD 0) ∧
    (∀ members : List JellyfinItem,
      getBestItemId (members.map clearItemStreams) = getBestItemId members) ∧
    (∀ it : JellyfinItem, truthyNum ((primarySource it).bind MediaSource.Bitrate) = none →
      displayBitrate it = truthyNum ((videoStream it).bind MediaStream.BitRate)) := by
  refine ⟨?_, ?_, ?_⟩
  · intro it
    cases hms : it.MediaSources with
    | none => simp [sourceBitrate, hms]
    | some l =>
      cases l with
      | nil => simp [sourceBitrate, hms]
      | cons s t => simp [sourceBitrate, hms]
  · intro members
    cases members with
    | nil => rfl
    | cons x xs =>
      simp only [List.map_cons, getBestItemId, foldl_bestStep_clear]
      rfl
  · intro it h
    simp [displayBitrate, h]

/-- C6 witness: a concrete entry whose primary source carries no bitrate but
whose video stream does; the display fallback is consulted there. -/
theorem claim_C6_witness :
    truthyNum ((primarySource exStreamOnly).bind MediaSource.Bitrate) = none ∧
    displayBitrate exStreamOnly = truthyNum ((videoStream exStreamOnly).bind MediaStream.BitRate) :=
  ⟨rfl, claim_C6.2.2 exStreamOnly rfl⟩

/-- C9: grouping and ranking never fail on well-typed input — the empty
catalog yields an empty group list, an all-optional-fields-absent entry is
grouped (and discarded as a singleton) without error, and absent numeric
fields read as 0. -/
theorem claim_C9 :
    (∀ (le : String → String → Bool) (searchTerm : String),
      duplicateGroups le [] searchTerm = []) ∧
    (∀ (le : String → String → Bool) (searchTerm : String),
      duplicateGroups le [bareEntry] searchTerm = []) ∧
    (∀ it : JellyfinItem, it.MediaSources = none → sourceBitrate it = 0 ∧ sourceSize it = 0) := by
  refine ⟨?_, ?_, ?_⟩
  · intro le st
    simp [duplicateGroups, buildGroups, dedupeFilter, searchFilter, sortGroups]
  · intro le st
    have h0 : dedupeFilter (buildGroups [bareEntry]) = [] := by decide
    have h : searchFilter st (dedupeFilter (buildGroups [bareEntry])) = [] := by
      rw [h0]; simp [searchFilter]
    simp [duplicateGroups, h, sortGroups]
  · intro it h
    simp [sourceBitrate, sourceSize, h]

/-- C9 witness: the numeric reads of the all-optional-fields-absent entry are 0. -/
theorem claim_C9_witness : sourceBitrate bareEntry = 0 ∧ sourceSize bareEntry = 0 :=
  claim_C9.2.2 bareEntry rfl

/-- C4: every group in the pipeline's output has strictly more than one
member — singletons are discarded before the filter and sort stages. -/
theorem claim_C4 : ∀ (le : String → String → Bool) (items : List JellyfinItem)
    (searchTerm : String) (g : DuplicateGroup),
    g ∈ duplicateGroups le items searchTerm → 1 < g.items.length := by
  intro le items st g h
  simp only [duplicateGroups, sortGroups] at h
  rw [List.mem_mergeSort] at h
  have h2 : g ∈ dedupeFilter (buildGroups items) := mem_searchFilter h
  have h3 := List.of_mem_filter h2
  simpa using h3

/-- C4 witness: a concrete duplicate pair yields a surviving two-member group. -/
theorem claim_C4_witness :
    exDupGroup ∈ duplicateGroups trivialLe [exDupA, exDupB] "" ∧ 1 < exDupGroup.items.length := by
  have h1 : searchFilter "" (dedupeFilter (buildGroups [exDupA, exDupB])) = [exDupGroup] := by
    decide
  have hmem : exDupGroup ∈ duplicateGroups trivialLe [exDupA, exDupB] "" := by
    simp only [duplicateGroups, sortGroups, h1]
    simp
  exact ⟨hmem, claim_C4 trivialLe [exDupA, exDupB] "" exDupGroup hmem⟩

/-- C7: after singleton removal, a group survives the free-text filter iff the
filter string is empty or a case-insensitive substring of the group's title;
the surviving groups are then stably sorted ascending by title under the
supplied (locale-derived) total comparator: the result is sorted, a
permutation of the filtered list, and every sorted sublist of the filtered
list (in particular any run of title ties) keeps its relative order; filtering
by "bar" against titles ["Foo","Barbarian"] keeps only "Barbarian". -/
theorem claim_C7 : ∀ (le : String → String → Bool),
    (∀ a b c, le a b = true → le b c = true → le a c = true) →
    (∀ a b, le a b || le b a) →
    ∀ (items : List JellyfinItem) (searchTerm : String),
    (∀ g, g ∈ searchFilter searchTerm (dedupeFilter (buildGroups items)) ↔
        g ∈ dedupeFilter (buildGroups items) ∧
          (searchTerm = "" ∨
            searchTerm.data.map Char.toLower <:+: g.title.data.map Char.toLower)) ∧
    (duplicateGroups le items searchTerm).Pairwise (fun a b => le a.title b.title = true) ∧
    (duplicateGroups le items searchTerm).Perm
      (searchFilter searchTerm (dedupeFilter (buildGroups items))) ∧
    (∀ c : List DuplicateGroup, c.Pairwise (fun a b => le a.title b.title = true) →
        c.Sublist (searchFilter searchTerm (dedupeFilter (buildGroups items))) →
        c.Sublist (duplicateGroups le items searchTerm)) ∧
    searchFilter "bar" [exGroupFoo, exGroupBarb] = [exGroupBarb] := by
  intro le htrans htotal items st
  have ltrans : ∀ a b c : DuplicateGroup,
      le a.title b.title = true → le b.title c.title = true → le a.title c.title = true :=
    fun a b c => htrans _ _ _
  have ltotal : ∀ a b : DuplicateGroup, le a.title b.title || le b.title a.title :=
    fun a b => htotal _ _
  refine ⟨?_, ?_, ?_, ?_, by decide⟩
  · intro g
    by_cases hst : st.isEmpty
    · have h0 : st = "" := (String.isEmpty_iff st).mp hst
      simp [searchFilter, hst, h0, String.isEmpty_iff]
    · have h0 : ¬ st = "" := fun h => hst ((String.isEmpty_iff st).mpr h)
      simp [searchFilter, hst, List.mem_filter, matchesSearch, h0]
  · simpa only [duplicateGroups, sortGroups] using
      List.sorted_mergeSort ltrans ltotal (searchFilter st (dedupeFilter (buildGroups items)))
  · simpa only [duplicateGroups, sortGroups] using
      List.mergeSort_perm (searchFilter st (dedupeFilter (buildGroups items)))
        (fun a b => le a.title b.title)
  · intro c hc hsub
    simpa only [duplicateGroups, sortGroups] using
      List.sublist_mergeSort ltrans ltotal hc hsub

/-- C7 witness: the trivial (constant-true) comparator is transitive and
total, and the filter example evaluates as claimed. -/
theorem claim_C7_witness :
    searchFilter "bar" [exGroupFoo, exGroupBarb] = [exGroupBarb] :=
  (claim_C7 trivialLe (fun _ _ _ _ h => h) (fun _ _ => rfl) [] "").2.2.2.2

/-- C8: the total duplicate count is the sum over groups of
`members.length - 1`; for group lists whose groups are non-empty (as all
pipeline groups are), the wasted-space byte total is the sum over groups of
the sizes' sum minus the sizes' maximum (absent sizes reading 0), the
maximum being an attained upper bound; a group with sizes `[10,20,30]`
wastes 30. -/
theorem claim_C8 : ∀ gs : List DuplicateGroup,
    totalDuplicates gs = (gs.map (fun g => (g.items.length : Int) - 1)).sum ∧
    ((∀ g ∈ gs, g.items ≠ []) →
      wastedBytes gs =
        (gs.map (fun g =>
          ((groupSizes g).sum : Int) - (((groupSizes g).max?.getD 0 : Nat) : Int))).sum ∧
      ∀ g ∈ gs, ∃ m, (groupSizes g).max? = some m ∧ m ∈ groupSizes g ∧
        ∀ s ∈ groupSizes g, s ≤ m) ∧
    wastedBytes [exSizesGroup] = 30 := by
  intro gs
  refine ⟨?_, fun hne => ⟨?_, ?_⟩, by decide⟩
  · have hl : (fun (acc : Int) (g : DuplicateGroup) => acc + (g.items.length : Int) - 1)
        = fun acc g => acc + ((g.items.length : Int) - 1) := by
      funext a g; ring
    rw [totalDuplicates, hl, foldl_acc_add]
    simp
  · have hfold : ∀ g : DuplicateGroup,
        ((groupSizes g).foldl (· + ·) 0 : Nat) = (groupSizes g).sum := by
      intro g; rw [foldl_add_eq_sum]; omega
    have hw : wastedBytes gs = (gs.map (fun g =>
        (((groupSizes g).foldl (· + ·) 0 : Nat) : Int) -
          (((groupSizes g).max?.getD 0 : Nat) : Int))).sum := by
      show gs.foldl (fun total g =>
        total + ((((groupSizes g).foldl (· + ·) 0 : Nat) : Int) -
          (((groupSizes g).max?.getD 0 : Nat) : Int))) 0 = _
      rw [foldl_acc_add]
      simp
    rw [hw]
    simp only [hfold]
  · intro g hg
    have hne0 : groupSizes g ≠ [] := by
      simp only [groupSizes, ne_eq, List.map_eq_nil_iff]
      exact hne g hg
    cases hm : (groupSizes g).max? with
    | none => exact absurd (List.max?_eq_none_iff.mp hm) hne0
    | some m =>
      refine ⟨m, rfl, List.max?_mem max_choice hm, ?_⟩
      exact (List.max?_le_iff (fun _ _ _ => max_le_iff) hm).mp le_rfl

/-- C8 witness: the non-emptiness hypothesis holds for the concrete size-list
group, and the wasted-space equation evaluates there. -/
theorem claim_C8_witness :
    (∀ g ∈ [exSizesGroup], g.items ≠ []) ∧
    wastedBytes [exSizesGroup] = ([exSizesGroup].map (fun g =>
      ((groupSizes g).sum : Int) - (((groupSizes g).max?.getD 0 : Nat) : Int))).sum :=
  ⟨by decide, ((claim_C8 [exSizesGroup]).2.1 (by decide)).1⟩

/-- C10: the id returned by `pickPreferred` on a non-empty members list is the
id of some element of that list. -/
theorem claim_C10 : ∀ (x : JellyfinItem) (xs : List JellyfinItem),
    ∃ it ∈ x :: xs, getBestItemId (x :: xs) = some it.Id :=
  fun x xs => ⟨xs.foldl bestStep x, foldl_bestStep_mem xs x, rfl⟩

/-- C3: grouping is order-independent as to which entries end up together —
for permuted inputs each group has a counterpart with the same key and a
permutation of the same members — while within one run every group's members
are exactly the input entries carrying its key, in input iteration order, and
the group's title and year come from the first such entry. -/
theorem claim_C3 : ∀ (l l' : List JellyfinItem), l.Perm l' →
    (∀ g ∈ buildGroups l, ∃ g' ∈ buildGroups l', g'.id = g.id ∧ g.items.Perm g'.items) ∧
    (∀ g ∈ buildGroups l, g.items = keyMembers g.id l) ∧
    (∀ g ∈ buildGroups l, ∃ first, (keyMembers g.id l).head? = some first ∧
        g.title = first.Name ∧ g.year = first.ProductionYear) := by
  intro l l' hperm
  obtain ⟨h1, h2, h3⟩ := buildGroups_inv l
  obtain ⟨h1', h2', h3'⟩ := buildGroups_inv l'
  refine ⟨?_, h1, h2⟩
  intro g hg
  obtain ⟨first, hf, -, -⟩ := h2 g hg
  have hfmem : first ∈ keyMembers g.id l := by
    cases hkm : keyMembers g.id l with
    | nil => rw [hkm] at hf; simp at hf
    | cons a t =>
      rw [hkm] at hf
      simp only [List.head?_cons, Option.some.injEq] at hf
      rw [← hf]
      exact List.mem_cons_self a t
  have hfl := List.mem_filter.mp hfmem
  have hkey : groupKey first = g.id := by simpa using hfl.2
  obtain ⟨g', hg', hid⟩ := h3' first (hperm.mem_iff.mp hfl.1)
  refine ⟨g', hg', by rw [hid, hkey], ?_⟩
  rw [h1 g hg, h1' g' hg', hid, hkey]
  exact hperm.filter _

/-- C3 witness: a concrete duplicate pair and its reversal — the group built
from the original input lists its members in input order, and the permuted
input yields a same-key group with a permutation of the same members. -/
theorem claim_C3_witness :
    exDupGroup ∈ buildGroups [exDupA, exDupB] ∧
    exDupGroup.items = keyMembers exDupGroup.id [exDupA, exDupB] ∧
    ∃ g' ∈ buildGroups [exDupB, exDupA], g'.id = exDupGroup.id ∧
      exDupGroup.items.Perm g'.items := by
  have h := claim_C3 [exDupA, exDupB] [exDupB, exDupA] (List.Perm.swap exDupB exDupA [])
  have hmem : exDupGroup ∈ buildGroups [exDupA, exDupB] := by decide
  exact ⟨hmem, h.2.1 exDupGroup hmem, h.1 exDupGroup hmem⟩

end JellyfinDedup
